import Mathlib

/-!
Verification of the real-time chat client (`src/components/Chat.tsx`) and the
profile-cache helpers (`fetchReviewer` / `fetchUserDetails`) of the
Front_techni_zelcenia repository, against its natural-language specification.

The TypeScript source is shallowly embedded in Lean:

* `Message`, `ingest`, `runIngest`, `getMessagesWithUser` — the message store
  kept in the `messages` React state.  `ws.onmessage` appends the parsed frame
  and re-sorts with `Array.prototype.sort((a, b) => ta - tb)`; ECMAScript sort
  is stable, and a stable sort (with a consistent comparator) is extensionally
  unique, so it is embedded as left-to-right insertion placing each element
  after all elements with a key less than or equal to its own
  (`jsStableSort` / `insortAfter`).
* `sent_at` is a string on the wire, compared via `new Date(s).getTime()`;
  well-formed messages carry the resulting epoch-milliseconds value, embedded
  here as `sent_at : Int`.
* `CState` / `step` / `runConn` — the WebSocket lifecycle of the component:
  `connectWebSocket`, the `onopen` / `onclose` handlers, the unmount cleanup
  (`wsRef.current.close()`), and the 3-second reconnect timer scheduled by
  `onclose`.  Transport and timer callbacks are environment events.
* `sendMessage` — the submit handler, including the semantics of
  `WebSocket.send` (CONNECTING throws an InvalidStateError, CLOSING/CLOSED
  silently discards, only OPEN writes a frame), with its try/catch.
* `JValue` / `handleFrame` — the untyped boundary of `ws.onmessage`:
  `JSON.parse` either throws (modelled as `Except.error`) or yields a JSON
  value, which the handler ingests without shape validation; the
  `setMessages` updater runs in the render phase, outside the handler's
  try/catch, so a TypeError raised there escapes as a render crash.
* `fetchReviewerStart` / `fetchReviewerOk` — the cache-checked profile fetch
  of `fetchReviewer` (part_000; `fetchUserDetails` in part_001 is the same
  shape), split at its await point so that interleavings of concurrent calls
  can be expressed; the closure's cache guard reads the `reviewers` snapshot
  of the render that created it, while settlements write the live state.
* `formatDate` / `groupByDay` — the day-grouping render loop
  (`userMessages.reduce`), with calendar conversion for the
  `toLocaleDateString` branch done by the standard civil-from-days algorithm
  (proleptic Gregorian, as used by JS `Date`); local time is taken as UTC.
-/

/-- A well-formed chat message as held in the `messages` state:
`message_id`, `sender_id`, `receiver_id`, `content`, and `sent_at` already
converted to the epoch milliseconds produced by `new Date(s).getTime()`. -/
structure Message where
  message_id : Int
  sender_id : Int
  receiver_id : Int
  content : String
  sent_at : Int
deriving DecidableEq, Repr

/-- Comparator order used by the sort in `ws.onmessage`:
`(a, b) => new Date(a.sent_at).getTime() - new Date(b.sent_at).getTime()`. -/
def msgLe (a b : Message) : Prop := a.sent_at ≤ b.sent_at

/-- Boolean strict version of the comparator, used by the sort embedding. -/
def msgLt (a b : Message) : Bool := decide (a.sent_at < b.sent_at)

/-- Insert `m` after every element whose key is less than or equal to `m`'s
key: the position a stable sort gives to the latest-arriving element. -/
def insortAfter {α : Type} (lt : α → α → Bool) (m : α) : List α → List α
  | [] => [m]
  | x :: xs => if lt m x then m :: x :: xs else x :: insortAfter lt m xs

/-- Stable sort, as performed by `Array.prototype.sort` with a consistent
comparator: fold the list left to right, inserting each element after all
elements with a key less than or equal to its own. -/
def jsStableSort {α : Type} (lt : α → α → Bool) (l : List α) : List α :=
  l.foldl (fun acc v => insortAfter lt v acc) []

/-- The message-store sort of `ws.onmessage`. -/
def msgSort (l : List Message) : List Message := jsStableSort msgLt l

/-- One step of `ws.onmessage` on a well-formed frame (the `setMessages`
updater): skip the frame if its `message_id` is already present, otherwise
append it and re-sort. -/
def ingest (prev : List Message) (m : Message) : List Message :=
  if prev.any (fun x => x.message_id == m.message_id) then prev
  else msgSort (prev ++ [m])

/-- The message store after ingesting the inbound frames `tr` in wire order,
starting from the initial empty state. -/
def runIngest (tr : List Message) : List Message := tr.foldl ingest []

/-- Function `getMessagesWithUser` from `Chat.tsx`: the projection of the store onto
the conversation between `currentUserId` and `userId` (both directions). -/
def getMessagesWithUser (currentUserId userId : Int) (messages : List Message) :
    List Message :=
  messages.filter (fun msg =>
    (msg.sender_id == currentUserId && msg.receiver_id == userId) ||
    (msg.sender_id == userId && msg.receiver_id == currentUserId))

/-- One step of collecting the first frame of each distinct `message_id`. -/
def dedupStep (acc : List Message) (m : Message) : List Message :=
  if acc.any (fun x => x.message_id == m.message_id) then acc else acc ++ [m]

/-- The sequence of messages that actually enter the store, in ingestion
order: the first frame of each distinct `message_id` in wire order. -/
def dedupFirst (tr : List Message) : List Message := tr.foldl dedupStep []

/-- Distinct `message_id` fields, the message-store uniqueness relation. -/
def idNe (a b : Message) : Prop := a.message_id ≠ b.message_id

lemma insortAfter_perm {α : Type} (lt : α → α → Bool) (m : α) :
    ∀ l : List α, List.Perm (insortAfter lt m l) (m :: l) := by
  intro l
  induction l with
  | nil => simp [insortAfter]
  | cons x xs ih =>
    by_cases h : lt m x
    · simp [insortAfter, h]
    · simp only [insortAfter, h, Bool.false_eq_true, not_false_iff, ite_false]
      exact ((ih.cons x).trans (List.Perm.swap m x xs))

lemma jsStableSort_append {α : Type} (lt : α → α → Bool) (l : List α) (m : α) :
    jsStableSort lt (l ++ [m]) = insortAfter lt m (jsStableSort lt l) := by
  simp [jsStableSort, List.foldl_append]

lemma jsStableSort_perm {α : Type} (lt : α → α → Bool) (l : List α) :
    List.Perm (jsStableSort lt l) l := by
  induction l using List.reverseRecOn with
  | nil => simp [jsStableSort]
  | append_singleton l m ih =>
    rw [jsStableSort_append]
    exact ((insortAfter_perm lt m _).trans (ih.cons m)).trans
      (List.perm_append_singleton m l).symm

lemma mem_jsStableSort {α : Type} (lt : α → α → Bool) (l : List α) (a : α) :
    a ∈ jsStableSort lt l ↔ a ∈ l :=
  (jsStableSort_perm lt l).mem_iff

lemma perm_any {α : Type} {l1 l2 : List α} (h : List.Perm l1 l2)
    (p : α → Bool) : l1.any p = l2.any p := by
  induction h with
  | nil => rfl
  | cons x _ ih => simp [List.any_cons, ih]
  | swap x y l => simp [List.any_cons, Bool.or_left_comm]
  | trans _ _ ih1 ih2 => exact ih1.trans ih2

lemma any_jsStableSort {α : Type} (lt : α → α → Bool) (l : List α)
    (p : α → Bool) : (jsStableSort lt l).any p = l.any p :=
  perm_any (jsStableSort_perm lt l) p

lemma pairwise_insortAfter (m : Message) (s : List Message)
    (hs : List.Pairwise msgLe s) :
    List.Pairwise msgLe (insortAfter msgLt m s) := by
  induction s with
  | nil => simp [insortAfter, List.pairwise_singleton]
  | cons x xs ih =>
    rcases List.pairwise_cons.mp hs with ⟨hx, hxs⟩
    by_cases h : msgLt m x
    · have hmx : msgLe m x := le_of_lt (by simpa [msgLt] using h)
      have hrw : insortAfter msgLt m (x :: xs) = m :: x :: xs := by
        simp [insortAfter, h]
      rw [hrw]
      refine List.pairwise_cons.mpr ⟨?_, hs⟩
      intro y hy
      rcases List.mem_cons.mp hy with rfl | hy'
      · exact hmx
      · exact le_trans hmx (hx y hy')
    · have hxm : msgLe x m := by
        simpa [msgLt, msgLe, Int.not_lt] using h
      have hrw : insortAfter msgLt m (x :: xs) = x :: insortAfter msgLt m xs := by
        simp [insortAfter, h]
      rw [hrw]
      refine List.pairwise_cons.mpr ⟨?_, ih hxs⟩
      intro y hy
      rcases List.mem_cons.mp ((insortAfter_perm msgLt m xs).mem_iff.mp hy) with
        rfl | h2
      · exact hxm
      · exact hx y h2

lemma pairwise_msgSort (l : List Message) : List.Pairwise msgLe (msgSort l) := by
  induction l using List.reverseRecOn with
  | nil => simp [msgSort, jsStableSort]
  | append_singleton l m ih =>
    rw [msgSort, jsStableSort_append]
    exact pairwise_insortAfter m _ ih

lemma insortAfter_append_last (m : Message) (s : List Message)
    (h : ∀ x ∈ s, msgLt m x = false) :
    insortAfter msgLt m s = s ++ [m] := by
  induction s with
  | nil => simp [insortAfter]
  | cons x xs ih =>
    have hx : msgLt m x = false := h x (List.mem_cons_self x xs)
    simp only [insortAfter, hx, Bool.false_eq_true, not_false_iff, ite_false,
      List.cons_append, List.cons.injEq, true_and]
    exact ih (fun y hy => h y (List.mem_cons_of_mem x hy))

lemma msgSort_of_sorted (l : List Message) (h : List.Pairwise msgLe l) :
    msgSort l = l := by
  induction l using List.reverseRecOn with
  | nil => simp [msgSort, jsStableSort]
  | append_singleton l m ih =>
    have hsplit := List.pairwise_append.mp h
    rw [msgSort, jsStableSort_append, ← msgSort, ih hsplit.1]
    refine insortAfter_append_last m l (fun x hx => ?_)
    have hle : msgLe x m := hsplit.2.2 x hx m (List.mem_singleton_self m)
    simpa [msgLt, Int.not_lt] using hle

/-- The store after any trace equals the stable sort of the first-occurrence
subsequence of the trace: the functional characterization of `runIngest`. -/
lemma runIngest_eq_sort_dedup (tr : List Message) :
    runIngest tr = msgSort (dedupFirst tr) := by
  induction tr using List.reverseRecOn with
  | nil => rfl
  | append_singleton tr m ih =>
    have h1 : runIngest (tr ++ [m]) = ingest (runIngest tr) m := by
      simp [runIngest, List.foldl_append]
    have h2 : dedupFirst (tr ++ [m]) =
        (if (dedupFirst tr).any (fun x => x.message_id == m.message_id)
         then dedupFirst tr else dedupFirst tr ++ [m]) := by
      simp [dedupFirst, List.foldl_append, dedupStep]
    rw [h1, h2, ih]
    by_cases hdup : (dedupFirst tr).any (fun x => x.message_id == m.message_id)
    · simp [ingest, any_jsStableSort, msgSort, hdup]
    · have hany : (msgSort (dedupFirst tr)).any
          (fun x => x.message_id == m.message_id) = false := by
        rw [msgSort, any_jsStableSort]
        simpa using hdup
      rw [if_neg hdup]
      show ingest (msgSort (dedupFirst tr)) m = msgSort (dedupFirst tr ++ [m])
      rw [ingest, hany]
      simp only [Bool.false_eq_true, not_false_iff, ite_false, if_neg]
      show jsStableSort msgLt (msgSort (dedupFirst tr) ++ [m])
        = jsStableSort msgLt (dedupFirst tr ++ [m])
      rw [jsStableSort_append, jsStableSort_append]
      exact congrArg (insortAfter msgLt m)
        (msgSort_of_sorted _ (pairwise_msgSort _))

lemma sublist_insortAfter_self {α : Type} (lt : α → α → Bool) (m : α) :
    ∀ s : List α, List.Sublist s (insortAfter lt m s) := by
  intro s
  induction s with
  | nil => simp [insortAfter]
  | cons x xs ih =>
    by_cases h : lt m x
    · have hrw : insortAfter lt m (x :: xs) = m :: x :: xs := by
        simp [insortAfter, h]
      rw [hrw]
      exact List.Sublist.cons m (List.Sublist.refl _)
    · have hrw : insortAfter lt m (x :: xs) = x :: insortAfter lt m xs := by
        simp [insortAfter, h]
      rw [hrw]
      exact List.Sublist.cons₂ x ih

lemma insortAfter_after (m m1 : Message) (s : List Message)
    (hs : List.Pairwise msgLe s) (h1 : m1 ∈ s)
    (hle : m1.sent_at ≤ m.sent_at) :
    List.Sublist [m1, m] (insortAfter msgLt m s) := by
  induction s with
  | nil => cases h1
  | cons x xs ih =>
    rcases List.pairwise_cons.mp hs with ⟨hx, hxs⟩
    by_cases h : msgLt m x
    · exfalso
      have hmx : m.sent_at < x.sent_at := by simpa [msgLt] using h
      rcases List.mem_cons.mp h1 with rfl | h1'
      · exact absurd hle (not_le.mpr hmx)
      · exact absurd (le_trans (hx m1 h1') hle) (not_le.mpr hmx)
    · have hrw : insortAfter msgLt m (x :: xs) = x :: insortAfter msgLt m xs := by
        simp [insortAfter, h]
      rw [hrw]
      rcases List.mem_cons.mp h1 with rfl | h1'
      · exact List.Sublist.cons₂ m1 (List.singleton_sublist.mpr
          ((insortAfter_perm msgLt m xs).mem_iff.mpr (List.mem_cons_self m xs)))
      · exact List.Sublist.cons x (ih hxs h1')

/-- Stability of the embedded sort: any two elements in relative order whose
keys are non-decreasing keep that relative order in the sorted output. -/
lemma msgSort_stable (l : List Message) (m1 m2 : Message)
    (hsub : List.Sublist [m1, m2] l) (hle : m1.sent_at ≤ m2.sent_at) :
    List.Sublist [m1, m2] (msgSort l) := by
  induction l using List.reverseRecOn with
  | nil => simp at hsub
  | append_singleton l x ih =>
    rw [msgSort, jsStableSort_append]
    rcases List.sublist_append_iff.mp hsub with ⟨r1, r2, heq, hr1, hr2⟩
    rcases List.sublist_singleton.mp hr2 with rfl | rfl
    · rw [List.append_nil] at heq
      rw [← heq] at hr1
      exact (ih hr1).trans (sublist_insortAfter_self msgLt x _)
    · cases r1 with
      | nil => simp at heq
      | cons a r1' =>
        cases r1' with
        | nil =>
          simp only [List.cons_append, List.nil_append, List.cons.injEq,
            and_true] at heq
          obtain ⟨ha, hx2⟩ := heq
          subst ha
          subst hx2
          have h1 : m1 ∈ jsStableSort msgLt l :=
            (mem_jsStableSort _ _ _).mpr (List.singleton_sublist.mp hr1)
          exact insortAfter_after m2 m1 (jsStableSort msgLt l)
            (pairwise_msgSort l) h1 hle
        | cons b r1'' => simp at heq

/-- In a sorted list, a strictly earlier timestamp forces an earlier
position. -/
lemma sorted_strict_precedes (s : List Message)
    (hs : List.Pairwise msgLe s) (m1 m2 : Message)
    (h1 : m1 ∈ s) (h2 : m2 ∈ s) (hlt : m1.sent_at < m2.sent_at) :
    List.Sublist [m1, m2] s := by
  induction s with
  | nil => cases h1
  | cons x xs ih =>
    rcases List.pairwise_cons.mp hs with ⟨hx, hxs⟩
    rcases List.mem_cons.mp h1 with rfl | h1'
    · have h2' : m2 ∈ xs := by
        rcases List.mem_cons.mp h2 with rfl | h
        · exact absurd hlt (lt_irrefl _)
        · exact h
      exact List.Sublist.cons₂ m1 (List.singleton_sublist.mpr h2')
    · rcases List.mem_cons.mp h2 with rfl | h2'
      · exact absurd (hx m1 h1') (by simp [msgLe, not_le.mpr hlt])
      · exact List.Sublist.cons x (ih hxs h1' h2')

lemma runIngest_pairwise (tr : List Message) :
    List.Pairwise msgLe (runIngest tr) := by
  rw [runIngest_eq_sort_dedup]
  exact pairwise_msgSort _

lemma filter_pair {p : Message → Bool} {m1 m2 : Message} {l : List Message}
    (hsub : List.Sublist [m1, m2] l) (h1 : p m1 = true) (h2 : p m2 = true) :
    List.Sublist [m1, m2] (l.filter p) := by
  have := List.Sublist.filter p hsub
  simpa [List.filter_cons, h1, h2] using this

lemma pairwise_dedup_aux :
    ∀ (tr acc : List Message), List.Pairwise idNe acc →
      List.Pairwise idNe (tr.foldl dedupStep acc) := by
  intro tr
  induction tr with
  | nil => exact fun acc h => h
  | cons m ms ih =>
    intro acc hacc
    refine ih (dedupStep acc m) ?_
    by_cases hdup : acc.any (fun x => x.message_id == m.message_id)
    · simpa [dedupStep, hdup] using hacc
    · have hne : ∀ x ∈ acc, x.message_id ≠ m.message_id := by
        simpa using hdup
      have : List.Pairwise idNe (acc ++ [m]) := by
        refine List.pairwise_append.mpr ⟨hacc, List.pairwise_singleton _ _, ?_⟩
        intro a ha b hb
        rcases List.mem_singleton.mp hb with rfl
        exact hne a ha
      simpa [dedupStep, hdup] using this

lemma pairwise_dedupFirst (tr : List Message) :
    List.Pairwise idNe (dedupFirst tr) :=
  pairwise_dedup_aux tr [] (List.Pairwise.nil)

lemma any_dedup_foldl_mono (p : Message → Bool) :
    ∀ (tr acc : List Message), acc.any p = true →
      (tr.foldl dedupStep acc).any p = true := by
  intro tr
  induction tr with
  | nil => exact fun acc h => h
  | cons m ms ih =>
    intro acc hacc
    refine ih (dedupStep acc m) ?_
    by_cases hdup : acc.any (fun x => x.message_id == m.message_id)
    · simpa [dedupStep, hdup] using hacc
    · simp only [dedupStep, hdup, Bool.false_eq_true, not_false_iff, ite_false]
      simp [List.any_append, hacc]

lemma mem_trace_any_dedup :
    ∀ (tr acc : List Message) (m : Message), m ∈ tr →
      (tr.foldl dedupStep acc).any
        (fun x => x.message_id == m.message_id) = true := by
  intro tr
  induction tr with
  | nil => intro acc m h; cases h
  | cons y ys ih =>
    intro acc m hm
    rcases List.mem_cons.mp hm with rfl | hm'
    · refine any_dedup_foldl_mono _ ys (dedupStep acc m) ?_
      by_cases hdup : acc.any (fun x => x.message_id == m.message_id)
      · simp only [dedupStep, hdup, ite_true]
      · simp only [dedupStep, hdup, Bool.false_eq_true, not_false_iff,
          ite_false]
        simp [List.any_append]
    · exact ih (dedupStep acc y) m hm'

lemma runIngest_nodup_ids (tr : List Message) :
    List.Pairwise idNe (runIngest tr) := by
  rw [runIngest_eq_sort_dedup]
  have hsym : ∀ {a b : Message}, idNe a b → idNe b a := fun h => Ne.symm h
  exact ((jsStableSort_perm msgLt (dedupFirst tr)).pairwise_iff hsym).mpr
    (pairwise_dedupFirst tr)

/-- C4: after every ingest trace, every conversation projection is sorted
non-decreasingly by `sent_at`; strictly earlier timestamps precede strictly
later ones in every projection containing both, regardless of ingestion
order; and messages with equal `sent_at` appear in their relative ingestion
order (the order of first occurrence in the trace, `dedupFirst`). -/
theorem c4_sorted_stable (tr : List Message) (uidA uidB : Int) :
    List.Pairwise msgLe (getMessagesWithUser uidA uidB (runIngest tr))
    ∧ (∀ m1 m2 : Message,
        m1 ∈ getMessagesWithUser uidA uidB (runIngest tr) →
        m2 ∈ getMessagesWithUser uidA uidB (runIngest tr) →
        m1.sent_at < m2.sent_at →
        List.Sublist [m1, m2] (getMessagesWithUser uidA uidB (runIngest tr)))
    ∧ (∀ m1 m2 : Message,
        m1 ∈ getMessagesWithUser uidA uidB (runIngest tr) →
        m2 ∈ getMessagesWithUser uidA uidB (runIngest tr) →
        m1.sent_at = m2.sent_at →
        List.Sublist [m1, m2] (dedupFirst tr) →
        List.Sublist [m1, m2] (getMessagesWithUser uidA uidB (runIngest tr)))
    := by
  simp only [getMessagesWithUser]
  refine ⟨?_, ?_, ?_⟩
  · exact (runIngest_pairwise tr).sublist (List.filter_sublist _)
  · intro m1 m2 h1 h2 hlt
    have h1' := List.mem_filter.mp h1
    have h2' := List.mem_filter.mp h2
    exact filter_pair
      (sorted_strict_precedes _ (runIngest_pairwise tr) m1 m2 h1'.1 h2'.1 hlt)
      h1'.2 h2'.2
  · intro m1 m2 h1 h2 heq hsub
    have h1' := List.mem_filter.mp h1
    have h2' := List.mem_filter.mp h2
    have hrun : List.Sublist [m1, m2] (runIngest tr) := by
      rw [runIngest_eq_sort_dedup]
      exact msgSort_stable _ m1 m2 hsub (le_of_eq heq)
    exact filter_pair hrun h1'.2 h2'.2

def msgA : Message := ⟨1, 1, 42, "a", 100⟩

def msgB : Message := ⟨2, 42, 1, "b", 100⟩

def msgC : Message := ⟨3, 1, 42, "c", 50⟩

/-- Witness for C4: a concrete trace with a tie (`msgA`, `msgB` at 100) and a
late-arriving earlier message (`msgC` at 50), in the conversation 1–42. -/
theorem c4_sorted_stable_witness :
    List.Pairwise msgLe (getMessagesWithUser 1 42 (runIngest [msgA, msgB, msgC]))
    ∧ List.Sublist [msgC, msgA]
        (getMessagesWithUser 1 42 (runIngest [msgA, msgB, msgC]))
    ∧ List.Sublist [msgA, msgB]
        (getMessagesWithUser 1 42 (runIngest [msgA, msgB, msgC])) :=
  ⟨(c4_sorted_stable [msgA, msgB, msgC] 1 42).1,
   (c4_sorted_stable [msgA, msgB, msgC] 1 42).2.1 msgC msgA
     (by decide) (by decide) (by decide),
   (c4_sorted_stable [msgA, msgB, msgC] 1 42).2.2 msgA msgB
     (by decide) (by decide) (by decide) (by decide)⟩

/-- C5: ingesting a frame whose `message_id` was already ingested leaves the
store exactly as if that frame had never arrived, and in every reachable
store state no two entries share a `message_id`. -/
theorem c5_dedup_idempotent :
    (∀ (tr1 tr2 : List Message) (m m' : Message),
        m'.message_id = m.message_id →
        runIngest (tr1 ++ m :: (tr2 ++ [m'])) = runIngest (tr1 ++ m :: tr2))
    ∧ (∀ tr : List Message, List.Pairwise idNe (runIngest tr)) := by
  constructor
  · intro tr1 tr2 m m' h
    have hassoc : tr1 ++ m :: (tr2 ++ [m']) = (tr1 ++ m :: tr2) ++ [m'] := by
      simp
    rw [hassoc]
    have hrun : runIngest ((tr1 ++ m :: tr2) ++ [m'])
        = ingest (runIngest (tr1 ++ m :: tr2)) m' := by
      simp [runIngest, List.foldl_append]
    rw [hrun]
    have hany : (runIngest (tr1 ++ m :: tr2)).any
        (fun x => x.message_id == m'.message_id) = true := by
      rw [runIngest_eq_sort_dedup, msgSort, any_jsStableSort]
      have hmem : m ∈ tr1 ++ m :: tr2 :=
        List.mem_append.mpr (Or.inr (List.mem_cons_self m tr2))
      have hmt := mem_trace_any_dedup (tr1 ++ m :: tr2) [] m hmem
      simpa [dedupFirst, h] using hmt
    simp only [ingest, hany, ite_true]
  · exact runIngest_nodup_ids

def msgD : Message := ⟨1, 1, 42, "x", 5⟩

def msgE : Message := ⟨1, 9, 9, "y", 7⟩

/-- Witness for C5: `msgE` duplicates the id of `msgD`; ingesting it after
`msgD` changes nothing. -/
theorem c5_dedup_idempotent_witness :
    msgE.message_id = msgD.message_id
    ∧ runIngest ([] ++ msgD :: ([] ++ [msgE])) = runIngest ([] ++ msgD :: []) :=
  ⟨by decide, c5_dedup_idempotent.1 [] [] msgD msgE (by decide)⟩

/-- WebSocket `readyState` constants. -/
inductive RS where
  | CONNECTING
  | OPEN
  | CLOSING
  | CLOSED
deriving DecidableEq, Repr

/-- State of the `Chat` component's connection management: every socket ever
constructed by `connectWebSocket` (indexed by creation order, each holding
its `readyState`), the socket currently referenced by `wsRef`, the
`isConnected` flag, and the number of reconnect timers scheduled by
`ws.onclose` that have not yet fired.  `wsRef` is never reset to null and no
socket other than the referenced one is ever closed by the component. -/
structure CState where
  socks : List RS
  wsRef : Option Nat
  isConnected : Bool
  pending : Nat
deriving DecidableEq, Repr

/-- State at mount: no socket, `wsRef.current = null`, disconnected. -/
def initC : CState := ⟨[], none, false, 0⟩

/-- The body of `connectWebSocket`: construct a new WebSocket (readyState
CONNECTING), attach handlers, and overwrite `wsRef.current` with it.  The
previous socket, if any, is neither closed nor detached. -/
def connectWebSocket (s : CState) : CState :=
  { socks := s.socks ++ [RS.CONNECTING]
    wsRef := some s.socks.length
    isConnected := s.isConnected
    pending := s.pending }

/-- Environment and component events driving the connection lifecycle. -/
inductive Ev where
  /-- the mount effect (or an effect re-run) calls `connectWebSocket()` -/
  | connectCall
  /-- one scheduled reconnect timeout fires: `setTimeout(() =>
  connectWebSocket(), 3000)` runs its callback -/
  | timerFire
  /-- the transport completes the handshake of socket `i`: its `onopen`
  handler runs (`setIsConnected(true)`) -/
  | onOpen (i : Nat)
  /-- socket `i` closes (transport failure, server close, or completion of a
  `close()` call): its `onclose` handler runs — `setIsConnected(false)` and
  `setTimeout(() => connectWebSocket(), 3000)` -/
  | onClose (i : Nat)
  /-- a transport error on socket `i`: its `onerror` handler runs
  (`setIsConnected(false)`) -/
  | onError (i : Nat)
  /-- the unmount cleanup runs: `if (wsRef.current) wsRef.current.close()` -/
  | ownerClose

/-- Small-step transition: apply one event to the component state.  Events
that are impossible in the transport semantics (opening a socket that is not
CONNECTING, a close event for an already CLOSED socket, a timer firing with
none pending, handlers of a nonexistent socket) leave the state unchanged. -/
def stepC (s : CState) : Ev → CState
  | Ev.connectCall => connectWebSocket s
  | Ev.timerFire =>
    if s.pending > 0 then connectWebSocket { s with pending := s.pending - 1 }
    else s
  | Ev.onOpen i =>
    if s.socks.get? i = some RS.CONNECTING then
      { s with socks := s.socks.set i RS.OPEN, isConnected := true }
    else s
  | Ev.onClose i =>
    match s.socks.get? i with
    | some rs =>
      if rs ≠ RS.CLOSED then
        { s with socks := s.socks.set i RS.CLOSED, isConnected := false,
                 pending := s.pending + 1 }
      else s
    | none => s
  | Ev.onError i =>
    if (s.socks.get? i).isSome then { s with isConnected := false } else s
  | Ev.ownerClose =>
    match s.wsRef with
    | some i =>
      match s.socks.get? i with
      | some RS.CONNECTING => { s with socks := s.socks.set i RS.CLOSING }
      | some RS.OPEN => { s with socks := s.socks.set i RS.CLOSING }
      | _ => s
    | none => s

/-- The component state after a sequence of lifecycle events from mount. -/
def runConn (evs : List Ev) : CState := evs.foldl stepC initC

/-- Number of transport handles that exist and are not CLOSED. -/
def liveCount (s : CState) : Nat :=
  (s.socks.filter (fun r => decide (r ≠ RS.CLOSED))).length

/-- C1 (evaluation at the failing run): the component connects, the socket
opens, the owner's cleanup calls `close()` while the connection is OPEN —
yet when the close completes, `onclose` schedules a reconnect (`pending`
becomes 1), and when that timer fires a fresh socket is created in
CONNECTING state: a Connecting transition strictly after the owner's
`close()`, contradicting close-suppresses-reconnect. -/
theorem c1_reconnect_after_close :
    (runConn [Ev.connectCall, Ev.onOpen 0]).socks.get? 0 = some RS.OPEN
    ∧ (runConn [Ev.connectCall, Ev.onOpen 0, Ev.ownerClose,
        Ev.onClose 0]).pending = 1
    ∧ (runConn [Ev.connectCall, Ev.onOpen 0, Ev.ownerClose, Ev.onClose 0,
        Ev.timerFire]).socks.get? 1 = some RS.CONNECTING := by
  refine ⟨rfl, rfl, rfl⟩

/-- C2 counterexample: two `connectWebSocket` calls with the first attempt
still outstanding leave two non-CLOSED transport handles, violating the
at-most-one-live-connection invariant as claimed. -/
theorem c2_two_connections :
    liveCount (runConn [Ev.connectCall, Ev.connectCall]) = 2
    ∧ ¬ liveCount (runConn [Ev.connectCall, Ev.connectCall]) ≤ 1 := by
  refine ⟨rfl, by decide⟩

lemma stepC_wsref (s : CState) (e : Ev)
    (hs : s.wsRef =
      if s.socks.isEmpty then none else some (s.socks.length - 1)) :
    (stepC s e).wsRef =
      (if (stepC s e).socks.isEmpty then none
       else some ((stepC s e).socks.length - 1)) := by
  cases e with
  | connectCall => simp [stepC, connectWebSocket]
  | timerFire =>
    simp only [stepC]
    split
    · simp [connectWebSocket]
    · exact hs
  | onOpen i =>
    simp only [stepC]
    split
    · simpa [List.set_eq_nil_iff, List.length_set] using hs
    · exact hs
  | onClose i =>
    simp only [stepC]
    split
    · split
      · simpa [List.set_eq_nil_iff, List.length_set] using hs
      · exact hs
    · exact hs
  | onError i =>
    simp only [stepC]
    split
    · simpa using hs
    · exact hs
  | ownerClose =>
    simp only [stepC]
    split
    · split
      · simpa [List.set_eq_nil_iff, List.length_set] using hs
      · simpa [List.set_eq_nil_iff, List.length_set] using hs
      · exact hs
    · exact hs

/-- C2 (amended): what the code does guarantee is that `wsRef` always
references the most recently created handle; it never prevents earlier
handles from remaining live. -/
theorem c2_wsref_newest (evs : List Ev) :
    (runConn evs).wsRef =
      (if (runConn evs).socks.isEmpty then none
       else some ((runConn evs).socks.length - 1)) := by
  suffices h : ∀ (l : List Ev) (s : CState),
      (s.wsRef = if s.socks.isEmpty then none else some (s.socks.length - 1)) →
      ((l.foldl stepC s).wsRef =
        if (l.foldl stepC s).socks.isEmpty then none
        else some ((l.foldl stepC s).socks.length - 1)) by
    exact h evs initC rfl
  intro l
  induction l with
  | nil => exact fun s hs => hs
  | cons e es ih =>
    exact fun s hs => ih (stepC s e) (stepC_wsref s e hs)

/-- Whitespace recognized by `String.prototype.trim` (the ASCII subset that
occurs in chat input; the full JS set also has form feed, vertical tab and
Unicode spaces, handled identically). -/
def wsChar (c : Char) : Bool :=
  c == ' ' || c == '\t' || c == '\n' || c == '\r'

/-- JS `String.prototype.trim`: drop leading and trailing whitespace.  Strings
are embedded as lists of characters. -/
def jsTrim (s : List Char) : List Char :=
  ((s.dropWhile wsChar).reverse.dropWhile wsChar).reverse

/-- The component state read by `sendMessage`: the current input text
(`newMessage`), the selected correspondent's `user_id` (if any), and the
`readyState` of `wsRef.current` (`none` when `wsRef.current` is null). -/
structure SendCtx where
  currentUserId : Int
  newMessage : List Char
  selectedUser : Option Int
  wsReady : Option RS
deriving DecidableEq, Repr

/-- An outbound frame as built by `sendMessage`:
`{ sender_id, receiver_id, content }`. -/
structure Frame where
  sender_id : Int
  receiver_id : Int
  content : List Char
deriving DecidableEq, Repr

/-- Result of one `sendMessage` call: the frames actually written to the
wire, the input text afterwards, and whether an exception escaped. -/
structure SendOut where
  frames : List Frame
  newMessage : List Char
  escaped : Bool
deriving DecidableEq, Repr

/-- Function `sendMessage` from `Chat.tsx`.  The guard is
`!newMessage.trim() || !selectedUser || !wsRef.current` — note it tests that
`wsRef.current` is non-null, not that the socket is OPEN.  `ws.send` inside
the try block follows the WebSocket standard: on a CONNECTING socket it
throws an InvalidStateError (caught by the catch, so the input is not
cleared); on a CLOSING or CLOSED socket it returns normally discarding the
data (so `setNewMessage("")` still runs); only on an OPEN socket is the
frame written.  No exception escapes in any case. -/
def sendMessage (ctx : SendCtx) : SendOut :=
  if jsTrim ctx.newMessage = [] then
    ⟨[], ctx.newMessage, false⟩
  else
    match ctx.selectedUser with
    | none => ⟨[], ctx.newMessage, false⟩
    | some uid =>
      match ctx.wsReady with
      | none => ⟨[], ctx.newMessage, false⟩
      | some RS.CONNECTING => ⟨[], ctx.newMessage, false⟩
      | some RS.OPEN =>
        ⟨[⟨ctx.currentUserId, uid, jsTrim ctx.newMessage⟩], [], false⟩
      | some RS.CLOSING => ⟨[], [], false⟩
      | some RS.CLOSED => ⟨[], [], false⟩

/-- C3 counterexample: with input text `hi`, correspondent 42 selected and a
socket that exists but is CLOSED (not Open), `sendMessage` is not a no-op —
it clears the input text (the typed message is silently lost) even though
nothing is transmitted. -/
theorem c3_closed_socket_not_noop :
    (sendMessage ⟨7, ['h', 'i'], some 42, some RS.CLOSED⟩).frames = []
    ∧ (sendMessage ⟨7, ['h', 'i'], some 42, some RS.CLOSED⟩).newMessage
        ≠ (⟨7, ['h', 'i'], some 42, some RS.CLOSED⟩ : SendCtx).newMessage := by
  refine ⟨rfl, by decide⟩

/-- C3 (amended): whenever the connection is not Open, `sendMessage` writes
zero frames, and no exception ever escapes; it is a complete no-op when the
content trims to empty, when no correspondent is selected, when no socket
was ever created (`wsRef.current` null), or when the socket is still
CONNECTING — but on a CLOSING/CLOSED socket the input text is still cleared;
and with content `hi`, an OPEN socket and selected correspondent 42 it
writes exactly the frame `{sender_id, receiver_id: 42, content: hi}`. -/
theorem c3_send_gating_amended (ctx : SendCtx) :
    (ctx.wsReady ≠ some RS.OPEN → (sendMessage ctx).frames = [])
    ∧ (sendMessage ctx).escaped = false
    ∧ (jsTrim ctx.newMessage = [] ∨ ctx.selectedUser = none
        ∨ ctx.wsReady = none ∨ ctx.wsReady = some RS.CONNECTING →
        sendMessage ctx = ⟨[], ctx.newMessage, false⟩)
    ∧ (ctx.newMessage = ['h', 'i'] → ctx.selectedUser = some 42 →
        ctx.wsReady = some RS.OPEN →
        (sendMessage ctx).frames = [⟨ctx.currentUserId, 42, ['h', 'i']⟩]) := by
  refine ⟨?_, ?_, ?_, ?_⟩
  · intro hws
    simp only [sendMessage]
    split
    · rfl
    · cases hsel : ctx.selectedUser with
      | none => rfl
      | some uid =>
        cases hws2 : ctx.wsReady with
        | none => rfl
        | some rs => cases rs <;> simp_all
  · simp only [sendMessage]
    split
    · rfl
    · cases ctx.selectedUser with
      | none => rfl
      | some uid =>
        cases ctx.wsReady with
        | none => rfl
        | some rs => cases rs <;> rfl
  · intro hcase
    simp only [sendMessage]
    rcases hcase with h | h | h | h
    · simp [h]
    · simp only [h]
      split <;> rfl
    · simp only [h]
      split
      · rfl
      · cases ctx.selectedUser with
        | none => rfl
        | some uid => rfl
    · simp only [h]
      split
      · rfl
      · cases ctx.selectedUser with
        | none => rfl
        | some uid => rfl
  · intro hmsg hsel hws
    simp only [sendMessage, hmsg, hsel, hws]
    split
    · rename_i hcontra
      exact absurd hcontra (by decide)
    · rfl

/-- Witness for C3 (amended), applied at concrete states: a CONNECTING
socket yields zero frames, and the concrete `hi`-to-42 send over an OPEN
socket yields exactly one frame. -/
theorem c3_send_gating_witness :
    (sendMessage ⟨7, ['h', 'i'], some 42, some RS.CONNECTING⟩).frames = []
    ∧ (sendMessage ⟨7, ['h', 'i'], some 42, some RS.OPEN⟩).frames
        = [⟨7, 42, ['h', 'i']⟩] :=
  ⟨(c3_send_gating_amended ⟨7, ['h', 'i'], some 42, some RS.CONNECTING⟩).1
     (by decide),
   (c3_send_gating_amended ⟨7, ['h', 'i'], some 42, some RS.OPEN⟩).2.2.2
     rfl rfl rfl⟩

lemma head?_dropWhile_not {α : Type} (p : α → Bool) :
    ∀ (l : List α) (c : α), (l.dropWhile p).head? = some c → p c = false := by
  intro l
  induction l with
  | nil => intro c hc; simp [List.dropWhile] at hc
  | cons x xs ih =>
    intro c hc
    rw [List.dropWhile_cons] at hc
    by_cases hp : p x
    · rw [if_pos hp] at hc
      exact ih c hc
    · rw [if_neg hp] at hc
      simp only [List.head?_cons, Option.some.injEq] at hc
      have hfp : p x = false := by simpa using hp
      rw [← hc]
      exact hfp

lemma getLast?_dropWhile_ne {α : Type} (p : α → Bool) :
    ∀ l : List α, l.dropWhile p ≠ [] →
      (l.dropWhile p).getLast? = l.getLast? := by
  intro l
  induction l with
  | nil => intro h; simp [List.dropWhile] at h
  | cons x xs ih =>
    intro h
    rw [List.dropWhile_cons] at h ⊢
    by_cases hp : p x
    · rw [if_pos hp] at h ⊢
      have hxs : xs ≠ [] := by
        intro hnil
        rw [hnil] at h
        simp [List.dropWhile] at h
      rw [ih h]
      cases xs with
      | nil => exact absurd rfl hxs
      | cons y ys => exact (List.getLast?_cons_cons).symm
    · rw [if_neg hp]

lemma head_jsTrim_not_ws (s : List Char) (c : Char)
    (hc : (jsTrim s).head? = some c) : wsChar c = false := by
  rw [jsTrim, List.head?_reverse] at hc
  have hne : List.dropWhile wsChar ((s.dropWhile wsChar).reverse) ≠ [] := by
    intro hnil
    rw [hnil] at hc
    simp at hc
  rw [getLast?_dropWhile_ne wsChar _ hne, List.getLast?_reverse] at hc
  exact head?_dropWhile_not wsChar s c hc

lemma last_jsTrim_not_ws (s : List Char) (c : Char)
    (hc : (jsTrim s).getLast? = some c) : wsChar c = false := by
  rw [jsTrim, List.getLast?_reverse] at hc
  exact head?_dropWhile_not wsChar _ c hc

/-- C9 (implicit): every frame `sendMessage` actually writes carries exactly
the whitespace-trimmed input text — never empty, never with leading or
trailing whitespace. -/
theorem c9_trimmed_content (ctx : SendCtx) (f : Frame)
    (hf : f ∈ (sendMessage ctx).frames) :
    f.content = jsTrim ctx.newMessage
    ∧ f.content ≠ []
    ∧ (∀ c, f.content.head? = some c → wsChar c = false)
    ∧ (∀ c, f.content.getLast? = some c → wsChar c = false) := by
  by_cases htrim : jsTrim ctx.newMessage = []
  · exfalso
    simp [sendMessage, htrim] at hf
  · cases hsel : ctx.selectedUser with
    | none =>
      exfalso
      simp [sendMessage, htrim, hsel] at hf
    | some uid =>
      cases hws : ctx.wsReady with
      | none =>
        exfalso
        simp [sendMessage, htrim, hsel, hws] at hf
      | some rs =>
        cases rs with
        | CONNECTING =>
          exfalso
          simp [sendMessage, htrim, hsel, hws] at hf
        | CLOSING =>
          exfalso
          simp [sendMessage, htrim, hsel, hws] at hf
        | CLOSED =>
          exfalso
          simp [sendMessage, htrim, hsel, hws] at hf
        | OPEN =>
          have hfeq : f = ⟨ctx.currentUserId, uid, jsTrim ctx.newMessage⟩ := by
            simpa [sendMessage, htrim, hsel, hws] using hf
          subst hfeq
          exact ⟨rfl, htrim,
            fun c hc => head_jsTrim_not_ws ctx.newMessage c hc,
            fun c hc => last_jsTrim_not_ws ctx.newMessage c hc⟩

/-- Witness for C9: sending the input consisting of a space, `h`, `i` and a
space to correspondent 42 over an OPEN socket writes the frame whose content
is exactly the two characters `h`, `i`. -/
theorem c9_trimmed_content_witness :
    (⟨7, 42, ['h', 'i']⟩ : Frame)
      ∈ (sendMessage ⟨7, [' ', 'h', 'i', ' '], some 42, some RS.OPEN⟩).frames
    ∧ (⟨7, 42, ['h', 'i']⟩ : Frame).content
        = jsTrim (⟨7, [' ', 'h', 'i', ' '], some 42,
            some RS.OPEN⟩ : SendCtx).newMessage
    ∧ (⟨7, 42, ['h', 'i']⟩ : Frame).content ≠ [] :=
  ⟨by decide,
   (c9_trimmed_content ⟨7, [' ', 'h', 'i', ' '], some 42, some RS.OPEN⟩
      ⟨7, 42, ['h', 'i']⟩ (by decide)).1,
   (c9_trimmed_content ⟨7, [' ', 'h', 'i', ' '], some 42, some RS.OPEN⟩
      ⟨7, 42, ['h', 'i']⟩ (by decide)).2.1⟩

/-- A JavaScript value produced by `JSON.parse`. -/
inductive JValue where
  | null
  | bool (b : Bool)
  | num (n : Int)
  | str (s : String)
  | arr (elems : List JValue)
  | obj (fields : List (String × JValue))

/-- Property access `v[k]` on a non-null value, returning `none` for the JS
value `undefined`: objects look the key up, primitives autobox and yield
`undefined`, arrays have no such string key.  Access on `null` throws a
TypeError; this total helper maps that case to `undefined`, and is used only
inside the sort comparator, which is never applied to a `null` operand: the
sort runs only after the dedup pass of `someIdEq` succeeded, which requires
every store entry and the new frame to survive the same property access, and
a one-element list is sorted without invoking the comparator at all. -/
def propD (v : JValue) (k : String) : Option JValue :=
  match v with
  | JValue.obj fields => (fields.find? (fun p => p.1 == k)).map (fun p => p.2)
  | _ => none

/-- Property access `v[k]` with the JS throwing behavior made explicit:
`Except.error` is the TypeError raised by reading a property of `null`;
otherwise the result is the field value, or `none` for `undefined`. -/
def propAccess (v : JValue) (k : String) : Except Unit (Option JValue) :=
  match v with
  | JValue.null => Except.error ()
  | JValue.obj fields =>
    Except.ok ((fields.find? (fun p => p.1 == k)).map (fun p => p.2))
  | _ => Except.ok none

/-- JavaScript strict equality `===` on two field values (`undefined` when
`none`): `undefined === undefined` is true, primitives compare by value, and
two objects or arrays obtained from distinct `JSON.parse` calls are distinct
references, hence never strictly equal. -/
def jsStrictEq : Option JValue → Option JValue → Bool
  | none, none => true
  | some JValue.null, some JValue.null => true
  | some (JValue.bool a), some (JValue.bool b) => a == b
  | some (JValue.num a), some (JValue.num b) => a == b
  | some (JValue.str a), some (JValue.str b) => a == b
  | _, _ => false

/-- The value of `new Date(v).getTime()` for a field value, where `none`
stands for NaN: numbers are epoch milliseconds, strings go through date
parsing (`dateParse`, a parameter — the host's date parser), `null` coerces
to 0 and booleans to 0/1; `undefined`, objects and arrays yield NaN (arrays
coerce through their string form; that corner is folded into NaN here and is
unreachable from well-formed frames). -/
def jsGetTime (dateParse : String → Option Int) : Option JValue → Option Int
  | some (JValue.num n) => some n
  | some (JValue.str s) => dateParse s
  | some JValue.null => some 0
  | some (JValue.bool b) => some (if b then 1 else 0)
  | _ => none

/-- The sort comparator of `ws.onmessage` on raw store entries:
`new Date(a.sent_at).getTime() - new Date(b.sent_at).getTime()`, with the
ECMAScript `SortCompare` rule that a NaN comparator result counts as +0. -/
def jsCmpFrame (dateParse : String → Option Int) (a b : JValue) : Int :=
  match jsGetTime dateParse (propD a "sent_at"),
      jsGetTime dateParse (propD b "sent_at") with
  | some x, some y => x - y
  | _, _ => 0

/-- The dedup pass of the `setMessages` updater:
`prev.some((m) => m.message_id === message.message_id)`.  For each entry the
callback reads `m.message_id` and then `message.message_id` (in that JS
evaluation order), so a `null` entry — or a `null` frame once any callback
runs — raises a TypeError (`Except.error`); on an empty store `some` never
invokes its callback and no access happens. -/
def someIdEq (msg : JValue) : List JValue → Except Unit Bool
  | [] => Except.ok false
  | m :: rest =>
    match propAccess m "message_id" with
    | Except.error _ => Except.error ()
    | Except.ok lhs =>
      match propAccess msg "message_id" with
      | Except.error _ => Except.error ()
      | Except.ok rhs =>
        if jsStrictEq lhs rhs then Except.ok true else someIdEq msg rest

/-- The full `ws.onmessage` handler on one inbound frame.  `Except.error ()`
as input is a frame whose text made `JSON.parse` throw — the catch logs and
the store is untouched.  Any parsed value then reaches the `setMessages`
updater, which React runs in the render phase, outside the handler's
try/catch: a TypeError thrown there (a `null` frame checked against a
non-empty store, via `someIdEq`) escapes as a render crash, returned as
`Except.error ()`.  Otherwise the value — Message-shaped or not, `null`
against an empty store included — is ingested: dedup on `message_id` under
`===`, then append and sort (a one-element list never calls the
comparator).  No shape validation happens. -/
def handleFrame (dateParse : String → Option Int) (store : List JValue)
    (frame : Except Unit JValue) : Except Unit (List JValue) :=
  match frame with
  | Except.error _ => Except.ok store
  | Except.ok msg =>
    match someIdEq msg store with
    | Except.error _ => Except.error ()
    | Except.ok true => Except.ok store
    | Except.ok false =>
      Except.ok (jsStableSort (fun a b => decide (jsCmpFrame dateParse a b < 0))
        (store ++ [msg]))

/-- C6 counterexample: the frame `{"foo": 1}` is valid JSON but is not a
Message (it has none of the Message fields), yet the handler inserts it into
the store: the store is not "exactly what it was before". -/
theorem c6_unvalidated_insert :
    handleFrame (fun _ => none) []
        (Except.ok (JValue.obj [("foo", JValue.num 1)]))
      = Except.ok [JValue.obj [("foo", JValue.num 1)]]
    ∧ (Except.ok [JValue.obj [("foo", JValue.num 1)]]
        : Except Unit (List JValue)) ≠ Except.ok [] := by
  refine ⟨rfl, by simp⟩

/-- C6 (amended): a frame whose text fails `JSON.parse` is dropped silently
— no exception escapes and the store is unchanged.  That is the only
dropping the handler does: a `null` frame is inserted into an empty store
(the dedup callback never runs, and a singleton sort never calls the
comparator), and against a non-empty store the dedup callback's property
access on `null` throws a TypeError that escapes in the render phase,
outside the handler's try/catch. -/
theorem c6_parse_failure_dropped (dateParse : String → Option Int)
    (store : List JValue) :
    handleFrame dateParse store (Except.error ()) = Except.ok store
    ∧ handleFrame dateParse [] (Except.ok JValue.null)
        = Except.ok [JValue.null]
    ∧ (store ≠ [] →
        handleFrame dateParse store (Except.ok JValue.null)
          = Except.error ()) := by
  refine ⟨rfl, rfl, ?_⟩
  intro hne
  cases store with
  | nil => exact absurd rfl hne
  | cons m rest => cases m <;> rfl

/-- Witness for C6 (amended) at a non-empty store: a `null` frame against
the store holding the number 1 crashes the render phase (the exception
escapes), leaving the model's outcome `Except.error`. -/
theorem c6_parse_failure_dropped_witness :
    ([JValue.num 1] : List JValue) ≠ []
    ∧ handleFrame (fun _ => none) [JValue.num 1] (Except.ok JValue.null)
        = Except.error () :=
  ⟨by simp,
   (c6_parse_failure_dropped (fun _ => none) [JValue.num 1]).2.2 (by simp)⟩

/-- A user profile as returned by the directory endpoints. -/
structure User where
  user_id : Int
  username : String
  email : String
  password_hash : String
  created_at : String
deriving DecidableEq, Repr

/-- Function `fetchUsers` from `Chat.tsx` (the part that decides which entries are
kept): the response list is filtered by
`data.filter((user) => user.user_id !== currentUserId)` before being stored
in the `users` state. -/
def fetchUsers (currentUserId : Int) (data : List User) : List User :=
  data.filter (fun user => user.user_id != currentUserId)

/-- C10 (implicit): every user kept in the chat's correspondent list has
`user_id` different from the current user, so the user can never select
themself. -/
theorem c10_no_self_in_list (currentUserId : Int) (data : List User)
    (u : User) (hu : u ∈ fetchUsers currentUserId data) :
    u.user_id ≠ currentUserId := by
  have h := List.mem_filter.mp hu
  simpa using h.2

def userA : User := ⟨1, "me", "m", "p", "t"⟩

def userB : User := ⟨2, "other", "o", "p", "t"⟩

/-- Witness for C10: with current user 1 and a directory answer containing
users 1 and 2, the kept entry 2 differs from the current user. -/
theorem c10_no_self_in_list_witness :
    userB ∈ fetchUsers 1 [userA, userB] ∧ userB.user_id ≠ 1 :=
  ⟨by decide, c10_no_self_in_list 1 [userA, userB] userB (by decide)⟩

/-- Directory-cache state of `fetchReviewer` (part_000; `fetchUserDetails`
in part_001 is identical in shape): the live `reviewers` React state — the
record written by `setReviewers`, newest binding first, as built by
`{...prev, [id]: reviewer}` — plus the log of profile fetches issued so
far.  The closures created during a render do not read this live state: each
captures the `reviewers` value of its own render (the snapshot passed
separately to `fetchReviewerStart`). -/
structure DirSt where
  reviewers : List (Int × User)
  fetchLog : List Int
deriving DecidableEq, Repr

/-- Cache lookup `reviewers[reviewerId]` in a `reviewers` record value
(newest binding wins, as in the JS spread update). -/
def lookupIn (cache : List (Int × User)) (uid : Int) : Option User :=
  (cache.find? (fun p => p.1 == uid)).map (fun p => p.2)

/-- Function `fetchReviewer` up to its await point: `if (reviewers[reviewerId])
return;` then issue the HTTP fetch.  The `reviewers` the guard reads is the
render-captured snapshot `snap` baked into the closure — not the live state
`s.reviewers` — and there is no record of in-flight fetches: the guard sees
neither outstanding fetches nor settlements that happened after the closure
was created. -/
def fetchReviewerStart (snap : List (Int × User)) (s : DirSt) (uid : Int) :
    DirSt :=
  if (lookupIn snap uid).isSome then s
  else { s with fetchLog := s.fetchLog ++ [uid] }

/-- Resumption of `fetchReviewer` when its fetch settles with `response.ok`:
`setReviewers(prev => ({...prev, [reviewerId]: reviewer}))` updates the live
state (the functional updater reads `prev`, so this write is not stale).  A
failed or non-ok settlement changes nothing. -/
def fetchReviewerOk (s : DirSt) (uid : Int) (reviewer : User) : DirSt :=
  { s with reviewers := (uid, reviewer) :: s.reviewers }

/-- C7 counterexample: two `fetchReviewer(7)` calls created by the same
render (snapshot: empty cache) issue two outbound fetches for id 7, not one
— both when the second call starts before the first settles, and even when
the first has fully settled (`fetchReviewerOk`) before the second starts, as
in the sequential await loop of `fetchReviews`: the guard reads the stale
snapshot, so nothing is coalesced. -/
theorem c7_concurrent_double_fetch :
    (fetchReviewerStart [] (fetchReviewerStart [] ⟨[], []⟩ 7) 7).fetchLog
      = [7, 7]
    ∧ (fetchReviewerStart []
        (fetchReviewerStart [] ⟨[], []⟩ 7) 7).fetchLog.length ≠ 1
    ∧ (fetchReviewerStart []
        (fetchReviewerOk (fetchReviewerStart [] ⟨[], []⟩ 7) 7 userB)
        7).fetchLog = [7, 7] := by
  refine ⟨rfl, by decide, rfl⟩

/-- C7 (amended): `fetchReviewer` issues no fetch and changes nothing when
the id is present in the snapshot its closure captured; a successful
settlement writes the profile into the live state, so closures of any later
render see it and do not refetch.  Within one render, though, the guard is
only the stale snapshot: a miss there always fetches, regardless of fetches
already outstanding or even settled since the render. -/
theorem c7_cache_no_refetch (snap : List (Int × User)) (s : DirSt)
    (uid : Int) (u : User) :
    ((lookupIn snap uid).isSome → fetchReviewerStart snap s uid = s)
    ∧ ((lookupIn snap uid).isSome = false →
        (fetchReviewerStart snap s uid).fetchLog = s.fetchLog ++ [uid])
    ∧ lookupIn (fetchReviewerOk s uid u).reviewers uid = some u
    ∧ fetchReviewerStart (fetchReviewerOk s uid u).reviewers
        (fetchReviewerOk s uid u) uid = fetchReviewerOk s uid u := by
  have h3 : lookupIn (fetchReviewerOk s uid u).reviewers uid = some u := by
    simp [lookupIn, fetchReviewerOk, List.find?]
  refine ⟨?_, ?_, h3, ?_⟩
  · intro hc
    simp [fetchReviewerStart, hc]
  · intro hc
    simp [fetchReviewerStart, hc]
  · simp [fetchReviewerStart, h3]

/-- Witness for C7 (amended): with id 7 in the snapshot, a call changes
nothing; with an empty snapshot, a call logs exactly one fetch. -/
theorem c7_cache_no_refetch_witness :
    (lookupIn [(7, userB)] 7).isSome
    ∧ fetchReviewerStart [(7, userB)] ⟨[(7, userB)], []⟩ 7
        = ⟨[(7, userB)], []⟩
    ∧ (lookupIn ([] : List (Int × User)) 7).isSome = false
    ∧ (fetchReviewerStart [] ⟨[], []⟩ 7).fetchLog = [] ++ [7] :=
  ⟨by decide,
   (c7_cache_no_refetch [(7, userB)] ⟨[(7, userB)], []⟩ 7 userB).1 (by decide),
   by decide,
   (c7_cache_no_refetch [] ⟨[], []⟩ 7 userB).2.1 (by decide)⟩

/-- Local calendar day of an epoch-millisecond timestamp (days since the
Unix epoch, floor division; local time taken as UTC).  Two timestamps
satisfy `date.toDateString() === other.toDateString()` exactly when their
day indices agree. -/
def dayIndex (t : Int) : Int := Int.fdiv t 86400000

/-- Civil date (year, month, day) of a day index, proleptic Gregorian — the
calendar used by the JS `Date` getters backing `toLocaleDateString`. -/
def civilFromDays (z0 : Int) : Int × Int × Int :=
  let z := z0 + 719468
  let era := Int.fdiv z 146097
  let doe := z - era * 146097
  let yoe := Int.fdiv
    (doe - Int.fdiv doe 1460 + Int.fdiv doe 36524 - Int.fdiv doe 146096) 365
  let doy := doe - (365 * yoe + Int.fdiv yoe 4 - Int.fdiv yoe 100)
  let mp := Int.fdiv (5 * doy + 2) 153
  let d := doy - Int.fdiv (153 * mp + 2) 5 + 1
  let m := mp + (if mp < 10 then 3 else -9)
  (yoe + era * 400 + (if m ≤ 2 then 1 else 0), m, d)

/-- The day label rendered by `formatDate`: "Dzisiaj" (today), "Wczoraj"
(yesterday), or the day-of-month/month text of
`toLocaleDateString("pl-PL", { day: "numeric", month: "short" })`. -/
inductive DayLabel where
  | dzisiaj
  | wczoraj
  | other (day : Int) (month : Int)
deriving DecidableEq, Repr

/-- Function `formatDate` from `Chat.tsx`, relative to the caller's current time
`now` (both arguments in epoch milliseconds). -/
def formatDate (now t : Int) : DayLabel :=
  if dayIndex t = dayIndex now then DayLabel.dzisiaj
  else if dayIndex t = dayIndex now - 1 then DayLabel.wczoraj
  else
    match civilFromDays (dayIndex t) with
    | (_, m, d) => DayLabel.other d m

/-- The day-grouping of the render loop (`userMessages.reduce`): a date
header is emitted whenever a message's `formatDate` differs from the
previous message's, so the flat render partitions the sequence into maximal
runs of adjacent messages sharing a label.  This function returns those
runs, each tagged with its label. -/
def groupByDay (now : Int) : List Message → List (DayLabel × List Message)
  | [] => []
  | m :: ms =>
    match groupByDay now ms with
    | [] => [(formatDate now m.sent_at, [m])]
    | (l2, g) :: gs =>
      if formatDate now m.sent_at = l2 then (l2, m :: g) :: gs
      else (formatDate now m.sent_at, [m]) :: (l2, g) :: gs

lemma groupByDay_join (now : Int) :
    ∀ msgs : List Message,
      ((groupByDay now msgs).map Prod.snd).flatten = msgs := by
  intro msgs
  induction msgs with
  | nil => rfl
  | cons m ms ih =>
    simp only [groupByDay]
    cases hg : groupByDay now ms with
    | nil =>
      rw [hg] at ih
      simp only [List.map_nil, List.flatten_nil] at ih
      simp [← ih]
    | cons g gs =>
      rw [hg] at ih
      obtain ⟨l2, gl⟩ := g
      by_cases he : formatDate now m.sent_at = l2
      · simp only [he, ite_true, List.map_cons, List.flatten_cons] at ih ⊢
        simp [← ih]
      · simp only [he, ite_false, List.map_cons, List.flatten_cons] at ih ⊢
        simp [← ih]

def exM1 : Message := ⟨1, 1, 42, "a", 1728036000000⟩

def exM2 : Message := ⟨2, 42, 1, "b", 1728036300000⟩

def exM3 : Message := ⟨3, 1, 42, "c", 1727999400000⟩

/-- C8: every message of the (ordered) input appears in exactly one group
and the groups concatenate back to the input in the same relative order
(their join is the input itself); and for the concrete messages at today
10:00 (`exM1`), today 10:05 (`exM2`) and yesterday 23:50 (`exM3`) — with
"now" today at 12:00 — grouping the conversation projection yields exactly
the two groups Wczoraj: 23:50 and Dzisiaj: 10:00, 10:05, in that order. -/
theorem c8_day_grouping :
    (∀ (now : Int) (msgs : List Message),
        ((groupByDay now msgs).map Prod.snd).flatten = msgs)
    ∧ groupByDay 1728043200000
        (getMessagesWithUser 1 42 (runIngest [exM1, exM2, exM3]))
      = [(DayLabel.wczoraj, [exM3]), (DayLabel.dzisiaj, [exM1, exM2])] := by
  refine ⟨fun now msgs => groupByDay_join now msgs, by decide⟩
